import Mathlib

/-!
Verification development for the FaaS control plane
(packages internal/registry, internal/api, internal/util).

The Go sources are shallowly embedded: stateful registry methods become
pure functions from an explicit registry state (plus an oracle structure
carrying the outcomes of external effects: port allocation, file writes,
process spawn, readiness probe, database calls) to a new state and an
optional error.  Go maps are modelled as association lists with
first-match lookup and in-place-replacing insert, which matches Go map
semantics because the code never creates duplicate keys.
-/

namespace Faas

/-- One `(key, value)` map, Go-map style: `alookup` finds the first match. -/
def alookup {α : Type} : List (String × α) → String → Option α
  | [], _ => none
  | p :: t, k => if p.1 = k then some p.2 else alookup t k

/-- Go `m[k] = v`: replace the first binding of `k`, or append one. -/
def ainsert {α : Type} : List (String × α) → String → α → List (String × α)
  | [], k, v => [(k, v)]
  | p :: t, k, v => if p.1 = k then (k, v) :: t else p :: ainsert t k v

/-- Go `delete(m, k)`: remove every binding of `k`. -/
def aerase {α : Type} : List (String × α) → String → List (String × α)
  | [], _ => []
  | p :: t, k => if p.1 = k then aerase t k else p :: aerase t k

/-- `strings.HasPrefix` on character lists (argument order: string, leading part). -/
def startsWithChars : List Char → List Char → Bool
  | _, [] => true
  | [], _ :: _ => false
  | c :: cs, p :: ps => c = p && startsWithChars cs ps

/-- `strings.HasPrefix(s, pre)` from the Go standard library. -/
def goStartsWith (s pre : String) : Bool :=
  startsWithChars s.data pre.data

/-- `strings.TrimPrefix(s, pre)` from the Go standard library. -/
def goTrimLeading (s pre : String) : String :=
  if goStartsWith s pre then ⟨s.data.drop pre.data.length⟩ else s

/-- Helper for `goSplit`: accumulates the current field in reverse. -/
def splitAux (sep : Char) : List Char → List Char → List String
  | [], acc => [⟨acc.reverse⟩]
  | c :: cs, acc =>
    if c = sep then ⟨acc.reverse⟩ :: splitAux sep cs [] else splitAux sep cs (c :: acc)

/-- `strings.Split(s, sep)` for a one-character separator, as used with `"."`. -/
def goSplit (s : String) (sep : Char) : List String :=
  splitAux sep s.data []

/-- True when the character does not occur in the string (used for `:`,
the separator of the composite map keys). -/
def noColon (s : String) : Bool :=
  decide (Char.ofNat 58 ∉ s.data)

/-- Is `pat` a contiguous substring of the character list? -/
def hasSub (pat : List Char) : List Char → Bool
  | [] => startsWithChars [] pat
  | c :: t => startsWithChars (c :: t) pat || hasSub pat t

/-- `strings.Contains(s, sub)`. -/
def strContains (s sub : String) : Bool :=
  hasSub sub.data s.data

/-- `WorkerdConfig` (registry.go): transient process handle of one record. -/
structure WorkerdConfig where
  port : Nat
  confPath : String
  codePath : String
  logPath : String
  pid : Nat
deriving DecidableEq

/-- `FunctionMetadata` (registry.go): one version-scoped function record.
`gorm.Model` contributes `id`, `createdAt`, `updatedAt`, `deletedAt`;
timestamps are abstracted as naturals, the env map as an association list.
The Go field `Alias` is rendered `aliasName` (`alias` is reserved in Lean). -/
structure FunctionMetadata where
  id : Nat
  createdAt : Nat
  updatedAt : Nat
  deletedAt : Option Nat
  name : String
  subdomain : String
  runtime : String
  code : String
  envVars : List (String × String)
  version : String
  aliasName : String
  workerd : WorkerdConfig
deriving DecidableEq

/-- The error outcomes the registry surfaces (the wrapped `fmt.Errorf` kinds). -/
inductive RegError where
  | portExhausted
  | writeCodeFailed
  | writeConfFailed
  | openLogFailed
  | spawnFailed
  | readinessTimeout
  | persistFailed
  | versionNotFound
  | findProcessFailed
  | checkProcessFailed
  | signalFailed
  | waitExitFailed
  | deleteDBFailed
deriving DecidableEq

/-- The in-memory index of `Registry` (registry.go): four maps plus the
storage directory.  The database handle and mutex are not part of the
pure state. -/
structure RegState where
  funcs : List (String × FunctionMetadata)
  subdomainMap : List (String × String)
  versionMap : List (String × FunctionMetadata)
  aliasMap : List (String × String)
  storageDir : String
deriving DecidableEq

/-- The registry as `Default` builds it: all four maps empty. -/
def emptyState (dir : String) : RegState :=
  { funcs := [], subdomainMap := [], versionMap := [], aliasMap := [], storageDir := dir }

/-- `fmt.Sprintf("%s:%s", name, version)`, the key of `versionMap`. -/
def versionKey (name ver : String) : String :=
  name ++ ":" ++ ver

/-- `fmt.Sprintf("%s:%s", name, alias)`, the key of `aliasMap`. -/
def aliasKey (name al : String) : String :=
  name ++ ":" ++ al

/-- `generateAliasSubdomain` (registry.go:476): `{alias}.{name}.func.local`. -/
def aliasSubdomain (name al : String) : String :=
  al ++ "." ++ name ++ ".func.local"

/-- `generateVersionSubdomain` (registry.go:471): `{version}.{name}.func.local`. -/
def versionSubdomain (name ver : String) : String :=
  ver ++ "." ++ name ++ ".func.local"

/-- `filepath.Join(dir, file)` for a clean absolute `dir`. -/
def joinPath (dir file : String) : String :=
  dir ++ "/" ++ file

/-- The sandbox configuration artifact exactly as `generateWorkerdFiles`
(registry.go:103-125) renders it: `fmt.Sprintf` over the raw template with
verbs `%s` (service name), `%s` (relative code file), `%d` (port), `%s`
(socket service).  Nothing else is interpolated. -/
def confTemplate (name codeFile : String) (port : Nat) : String :=
  "\nusing Workerd = import \"/workerd/workerd.capnp\";\n\nconst config :Workerd.Config = (\n  services = [\n    (\n      name = \""
    ++ name
    ++ "\",\n      worker = (\n        serviceWorkerScript = embed \""
    ++ codeFile
    ++ "\",\n        compatibilityDate = \"2024-05-01\"\n      )\n    )\n  ],\n  sockets = [\n    (\n      name = \"http\",\n      address = \"127.0.0.1:"
    ++ toString port
    ++ "\",\n      http = (),\n      service = \""
    ++ name
    ++ "\"\n    )\n  ]\n);\n"

/-- One rendered environment binding, `(name = "%s", value = "%s")`,
as `genWorkerdEnv` (registry/util.go:50) formats it. -/
def envBindingLine (k v : String) : String :=
  "(name = \"" ++ k ++ "\", value = \"" ++ v ++ "\")"

/-- `genWorkerdEnv` (registry/util.go:44-53): renders the env map as
comma-and-newline separated Cap'n-Proto bindings.  This helper exists in
the source but is called from nowhere. -/
def genWorkerdEnv (env : List (String × String)) : String :=
  if env.isEmpty then ""
  else String.intercalate (",\n          ") (env.map (fun kv => envBindingLine kv.1 kv.2))

/-- Outcomes of the external effects of one `startWorkerd` run:
the two `os.WriteFile` calls, `os.OpenFile` for the log, `cmd.Start()`
(with the pid the OS assigns), and the readiness probe. -/
structure StartExt where
  writeCodeOk : Bool
  writeConfOk : Bool
  openLogOk : Bool
  spawnOk : Bool
  pid : Nat
  waitOk : Bool
deriving DecidableEq

/-- What `generateWorkerdFiles` produces: the updated record plus the two
files it wrote. -/
structure GenResult where
  meta : FunctionMetadata
  codePath : String
  codeContent : String
  confPath : String
  confContent : String
deriving DecidableEq

/-- `generateWorkerdFiles` (registry.go:92-136): writes `{name}.js` with the
record's code, writes `{name}.capnp` with the rendered template, records
the three paths on the record.  Filenames use `meta.Name` only. -/
def generateWorkerdFiles (dir : String) (m : FunctionMetadata) (ext : StartExt) :
    Except RegError GenResult :=
  let codeFile := m.name ++ ".js"
  let codePath := joinPath dir codeFile
  if ext.writeCodeOk = false then .error .writeCodeFailed else
  let m1 := { m with workerd := { m.workerd with codePath := codePath } }
  let confPath := joinPath dir (m1.name ++ ".capnp")
  let conf := confTemplate m1.name codeFile m1.workerd.port
  if ext.writeConfOk = false then .error .writeConfFailed else
  let m2 := { m1 with workerd := { m1.workerd with confPath := confPath } }
  let m3 := { m2 with workerd := { m2.workerd with logPath := joinPath dir (m2.name ++ ".log") } }
  .ok { meta := m3, codePath := codePath, codeContent := m3.code,
        confPath := confPath, confContent := conf }

/-- `startWorkerd` (registry.go:139-170): render files, open the log, spawn
`workerd serve`, record the pid, probe the port.  On probe timeout the
child is killed and the error returned (the recorded pid is discarded with
the record on every failing caller path). -/
def startWorkerd (dir : String) (m : FunctionMetadata) (ext : StartExt) :
    Except RegError FunctionMetadata :=
  match generateWorkerdFiles dir m ext with
  | .error e => .error e
  | .ok g =>
    if ext.openLogOk = false then .error .openLogFailed
    else if ext.spawnOk = false then .error .spawnFailed
    else
      let m2 := { g.meta with workerd := { g.meta.workerd with pid := ext.pid } }
      if ext.waitOk = false then .error .readinessTimeout
      else .ok m2

/-- Result of delivering one signal (or of `process.Wait()`):
delivered normally, `os.ErrProcessDone`, or another error. -/
inductive SignalOutcome where
  | delivered
  | processDone
  | failed
deriving DecidableEq

/-- Outcomes of the external calls inside `stopWorkerd`. -/
structure StopExt where
  findOk : Bool
  sigZero : SignalOutcome
  sigTerm : SignalOutcome
  waitOutcome : SignalOutcome
deriving DecidableEq

/-- Clear the recorded pid, leaving every other field alone. -/
def clearPid (m : FunctionMetadata) : FunctionMetadata :=
  { m with workerd := { m.workerd with pid := 0 } }

/-- `stopWorkerd` (registry.go:172-211): no-op when pid is zero; otherwise
find the process, check liveness with signal 0, send SIGTERM, wait.
`os.ErrProcessDone` anywhere counts as success.  Success sets `Pid = 0`;
the `Port` field is never touched. -/
def stopWorkerd (m : FunctionMetadata) (ext : StopExt) :
    FunctionMetadata × Option RegError :=
  if m.workerd.pid = 0 then (m, none)
  else if ext.findOk = false then (m, some .findProcessFailed)
  else
    match ext.sigZero with
    | .processDone => (clearPid m, none)
    | .failed => (m, some .checkProcessFailed)
    | .delivered =>
      match ext.sigTerm with
      | .processDone => (clearPid m, none)
      | .failed => (m, some .signalFailed)
      | .delivered =>
        match ext.waitOutcome with
        | .failed => (m, some .waitExitFailed)
        | _ => (clearPid m, none)

/-- Outcomes of the external effects of one `RegisterOrUpdate` call:
`getFreePort`, the `startWorkerd` bundle, `time.Now()`, `db.Save`. -/
structure DeployExt where
  freePort : Option Nat
  start : StartExt
  now : Nat
  saveOk : Bool
deriving DecidableEq

/-- `RegisterOrUpdate` (registry.go:214-279), step for step:
1. `aliasMap[name:latest] = version` (before anything can fail);
2. allocate a port, abort on failure;
3. `startWorkerd`, abort on failure;
4. if `Alias` is non-empty: drop the *version subdomain* of the version the
   alias previously pointed to, then bind alias and alias subdomain;
5. `funcs[name] = meta`, stamp `UpdatedAt`, `db.Save`, abort on failure;
6. bind `funcs`, `versionMap`, and the record's own subdomain. -/
def registerOrUpdate (r : RegState) (meta : FunctionMetadata) (ext : DeployExt) :
    RegState × Option RegError :=
  let r1 := { r with aliasMap := ainsert r.aliasMap (aliasKey meta.name ("latest")) meta.version }
  let vkey := versionKey meta.name meta.version
  match ext.freePort with
  | none => (r1, some .portExhausted)
  | some p =>
    let meta1 := { meta with workerd := { meta.workerd with port := p } }
    match startWorkerd r1.storageDir meta1 ext.start with
    | .error e => (r1, some e)
    | .ok meta2 =>
      let r2 :=
        if meta2.aliasName ≠ "" then
          let akey := aliasKey meta2.name meta2.aliasName
          let r2a :=
            match alookup r1.aliasMap akey with
            | some oldV =>
              match alookup r1.versionMap (versionKey meta2.name oldV) with
              | some oldMeta => { r1 with subdomainMap := aerase r1.subdomainMap oldMeta.subdomain }
              | none => r1
            | none => r1
          { r2a with
              aliasMap := ainsert r2a.aliasMap akey meta2.version,
              subdomainMap := ainsert r2a.subdomainMap
                (aliasSubdomain meta2.name meta2.aliasName) vkey }
        else r1
      let meta3 := { meta2 with updatedAt := ext.now }
      let r3 := { r2 with funcs := ainsert r2.funcs meta3.name meta3 }
      if ext.saveOk = false then (r3, some .persistFailed)
      else
        ({ r3 with
             funcs := ainsert r3.funcs meta3.name meta3,
             versionMap := ainsert r3.versionMap vkey meta3,
             subdomainMap := ainsert r3.subdomainMap meta3.subdomain vkey }, none)

/-- The conditional start inside `Rollback` (registry.go:292-297): the
target is started only when its recorded pid is zero. -/
def rollbackStart (r : RegState) (tm : FunctionMetadata) (ext : StartExt) :
    Except RegError FunctionMetadata :=
  if tm.workerd.pid = 0 then startWorkerd r.storageDir tm ext else .ok tm

/-- `Rollback` (registry.go:282-318).  The Go function takes `alias` by
pointer and may write it back; the model returns the final alias value.
A start is attempted only when the target's recorded pid is zero; the
started record replaces the shared `versionMap` entry (in Go the maps
share one pointer, so the in-place mutation is visible there). -/
def rollback (r : RegState) (alias0 funcName targetVersion : String) (ext : StartExt) :
    RegState × String × Option RegError :=
  let targetKey := versionKey funcName targetVersion
  match alookup r.versionMap targetKey with
  | none => (r, alias0, some .versionNotFound)
  | some tm =>
    match rollbackStart r tm ext with
    | .error e => (r, alias0, some e)
    | .ok tm1 =>
      let r1 := { r with versionMap := ainsert r.versionMap targetKey tm1 }
      if alias0 ≠ "" then
        let akey := aliasKey funcName alias0
        let r2 :=
          match alookup r1.aliasMap akey with
          | some oldV =>
            match alookup r1.versionMap (versionKey funcName oldV) with
            | some _ =>
              { r1 with subdomainMap := aerase r1.subdomainMap (aliasSubdomain funcName alias0) }
            | none => r1
          | none => r1
        let r3 := { r2 with aliasMap := ainsert r2.aliasMap akey targetVersion }
        let r4 := { r3 with funcs := ainsert r3.funcs funcName tm1 }
        ({ r4 with
             subdomainMap := ainsert r4.subdomainMap (aliasSubdomain funcName alias0) targetKey },
         alias0, none)
      else
        let al := tm1.aliasName
        let r4 := { r1 with funcs := ainsert r1.funcs funcName tm1 }
        ({ r4 with
             subdomainMap := ainsert r4.subdomainMap (aliasSubdomain funcName al) targetKey },
         al, none)

/-- Outcomes of the external calls inside `DeleteVersion`. -/
structure DeleteExt where
  stop : StopExt
  dbOk : Bool
deriving DecidableEq

/-- One iteration of `DeleteVersion`'s alias-cleanup loop: drop the alias
subdomain derived from the alias key, drop the alias entry itself. -/
def deleteAliasStep (funcName : String) (acc : RegState) (kv : String × String) : RegState :=
  { acc with
      subdomainMap := aerase acc.subdomainMap
        (aliasSubdomain funcName (goTrimLeading kv.1 (funcName ++ ":"))),
      aliasMap := aerase acc.aliasMap kv.1 }

/-- `DeleteVersion` (registry.go:387-421): require the version, stop its
process, soft-delete in the database, then remove the version entry, its
subdomain, and every alias of this function still pointing at the version
(together with that alias's subdomain).  The Go `range` loop over the map
is modelled as filter-then-fold; its per-entry effects touch pairwise
distinct keys, so the iteration order is immaterial. -/
def deleteVersion (r : RegState) (funcName ver : String) (ext : DeleteExt) :
    RegState × Option RegError :=
  let vkey := versionKey funcName ver
  match alookup r.versionMap vkey with
  | none => (r, some .versionNotFound)
  | some meta =>
    match stopWorkerd meta ext.stop with
    | (_, some e) => (r, some e)
    | (meta1, none) =>
      if ext.dbOk = false then (r, some .deleteDBFailed)
      else
        let r2 := { r with
            versionMap := aerase r.versionMap vkey,
            subdomainMap := aerase r.subdomainMap meta1.subdomain }
        let doomed := r2.aliasMap.filter
          (fun kv => kv.2 = ver && goStartsWith kv.1 (funcName ++ ":"))
        let r3 := doomed.foldl (deleteAliasStep funcName) r2
        (r3, none)

/-- Per-record outcomes of the external calls inside `loadFromDB`'s loop. -/
structure LoadExt where
  freePort : Option Nat
  start : StartExt
deriving DecidableEq

/-- The all-failing oracle, used when the supplied oracle list runs dry. -/
def failStartExt : StartExt :=
  { writeCodeOk := false, writeConfOk := false, openLogOk := false,
    spawnOk := false, pid := 0, waitOk := false }

/-- The all-failing per-record load oracle. -/
def failLoadExt : LoadExt :=
  { freePort := none, start := failStartExt }

/-- The map-rebuilding tail of `loadFromDB`'s loop body (registry.go:347-368),
applied to one successfully restarted record: bind `versionMap`,
`subdomainMap`, the row's alias, and keep the most recently updated row
per name in `funcs` (recording its version in the latest list). -/
def loadStep (r : RegState) (lv : List (String × String)) (m2 : FunctionMetadata) :
    RegState × List (String × String) :=
  let vkey := versionKey m2.name m2.version
  let r1 := { r with
      versionMap := ainsert r.versionMap vkey m2,
      subdomainMap := ainsert r.subdomainMap m2.subdomain vkey }
  let r2 :=
    if m2.aliasName ≠ "" then
      { r1 with
          aliasMap := ainsert r1.aliasMap (aliasKey m2.name m2.aliasName) m2.version,
          subdomainMap := ainsert r1.subdomainMap
            (aliasSubdomain m2.name m2.aliasName) vkey }
    else r1
  let upd :=
    match alookup r2.funcs m2.name with
    | none => true
    | some ex => decide (ex.updatedAt < m2.updatedAt)
  let r3 := if upd then { r2 with funcs := ainsert r2.funcs m2.name m2 } else r2
  let lv3 := if upd then ainsert lv m2.name m2.version else lv
  (r3, lv3)

/-- The loop of `loadFromDB` (registry.go:332-369): per surviving row,
reallocate a port, restart the process (skipping the row on either
failure), then fold `loadStep` over the successes. -/
def loadAux (dir : String) :
    List FunctionMetadata → List LoadExt → RegState → List (String × String) →
    RegState × List (String × String)
  | [], _, r, lv => (r, lv)
  | m :: ms, exts, r, lv =>
    let pair := match exts with
      | [] => (failLoadExt, ([] : List LoadExt))
      | e :: es => (e, es)
    match pair.1.freePort with
    | none => loadAux dir ms pair.2 r lv
    | some p =>
      let m1 := { m with workerd := { m.workerd with port := p } }
      match startWorkerd dir m1 pair.1.start with
      | .error _ => loadAux dir ms pair.2 r lv
      | .ok m2 =>
        let res := loadStep r lv m2
        loadAux dir ms pair.2 res.1 res.2

/-- The second loop of `loadFromDB` (registry.go:371-381): point
`aliasMap[name:latest]` at the recorded latest version and, when that
version exists in `versionMap`, register the `latest` alias subdomain. -/
def applyLatest (r : RegState) (lv : List (String × String)) : RegState :=
  lv.foldl (fun acc kv =>
    let acc1 := { acc with aliasMap := ainsert acc.aliasMap (aliasKey kv.1 ("latest")) kv.2 }
    let lkey := versionKey kv.1 kv.2
    if (alookup acc1.versionMap lkey).isSome then
      { acc1 with subdomainMap := ainsert acc1.subdomainMap (aliasSubdomain kv.1 ("latest")) lkey }
    else acc1) r

/-- `loadFromDB` (registry.go:321-385) as run from `Default` on the empty
registry: query rows with `deleted_at IS NULL` (the explicit `Where`
clause on line 326), then rebuild the in-memory maps. -/
def loadFromDB (dir : String) (db : List FunctionMetadata) (exts : List LoadExt) : RegState :=
  let metas := db.filter (fun m => m.deletedAt.isNone)
  let res := loadAux dir metas exts (emptyState dir) []
  applyLatest res.1 res.2

/-- `GetBySubdomain` (registry.go:424-434): subdomain key to version key to
record; a dangling version key reports a miss. -/
def getBySubdomain (r : RegState) (s : String) : Option FunctionMetadata :=
  match alookup r.subdomainMap s with
  | none => none
  | some vkey => alookup r.versionMap vkey

/-- `GetByName` (registry.go:436-441): the per-name latest record. -/
def getByName (r : RegState) (fn : String) : Option FunctionMetadata :=
  alookup r.funcs fn

/-- `GetByVersion` (registry.go:443-449). -/
def getByVersion (r : RegState) (fn v : String) : Option FunctionMetadata :=
  alookup r.versionMap (versionKey fn v)

/-- `GetByAlias` (registry.go:451-468): split the host on `.`; with at
least two labels, the first is the alias and the second the function
name; follow `aliasMap` then `versionMap`. -/
def getByAlias (r : RegState) (s : String) : Option FunctionMetadata :=
  match goSplit s (Char.ofNat 46) with
  | al :: fn :: _ =>
    match alookup r.aliasMap (aliasKey fn al) with
    | none => none
    | some v => getByVersion r fn v
  | _ => none

/-- The resolution chain of `ProxyHandler` (api/handler.go:128-141):
subdomain, then alias, then the first host label as a bare function name. -/
def proxyResolve (r : RegState) (host : String) : Option FunctionMetadata :=
  match getBySubdomain r host with
  | some m => some m
  | none =>
    match getByAlias r host with
    | some m => some m
    | none => getByName r ((goSplit host (Char.ofNat 46)).headD "")

/-- What `ProxyHandler` replies with: 400 without a Host header, 404 when
resolution misses, otherwise a forward to the record's loopback port. -/
inductive ProxyOutcome where
  | badRequest
  | notFound
  | forward (port : Nat)
deriving DecidableEq

/-- `ProxyHandler` (api/handler.go:119-152) as a function of the state and
the Host header. -/
def proxyHandler (r : RegState) (host : String) : ProxyOutcome :=
  if host = "" then .badRequest
  else
    match proxyResolve r host with
    | none => .notFound
    | some m => .forward m.workerd.port

/-- The claim's reading of the resolver, written as its three tiers:
exact subdomain lookup (a hit must reach a record); else split the host,
first label as alias and second as function name, through the alias map
to the referenced record; else the first label as a function name, whose
latest record (the `funcs` entry) is returned if present; else a miss. -/
def resolveSpec (r : RegState) (host : String) : Option FunctionMetadata :=
  match (alookup r.subdomainMap host).bind (alookup r.versionMap) with
  | some m => some m
  | none =>
    match goSplit host (Char.ofNat 46) with
    | al :: fn :: _ =>
      match (alookup r.aliasMap (fn ++ ":" ++ al)).bind
          (fun v => alookup r.versionMap (fn ++ ":" ++ v)) with
      | some m => some m
      | none => alookup r.funcs al
    | [onlyLabel] => alookup r.funcs onlyLabel
    | [] => none

/-- `string(rune(port))`: the one-character string whose code point is the
port number — what `waitPortListening` (registry/util.go:24) builds. -/
def goStringOfRune (n : Nat) : String :=
  String.singleton (Char.ofNat n)

/-- `net.JoinHostPort(host, port)`: bracket the host when it contains a
colon or a percent sign, then join with `:`. -/
def joinHostPort (host port : String) : String :=
  if host.data.contains (Char.ofNat 58) || host.data.contains (Char.ofNat 37) then
    "[" ++ host ++ "]:" ++ port
  else host ++ ":" ++ port

/-- The dial address of `waitPortListening` (registry/util.go:23-41), the
probe `startWorkerd` actually calls: `net.JoinHostPort(host, string(rune(port)))`. -/
def waitPortAddr (host : String) (port : Nat) : String :=
  joinHostPort host (goStringOfRune port)

/-- The dial address of `util.WaitPortListening` (util/util.go:23-41):
`net.JoinHostPort(host, strconv.Itoa(port))`. -/
def utilWaitPortAddr (host : String) (port : Nat) : String :=
  joinHostPort host (toString port)

/-- One registry operation together with its external-effect oracle. -/
inductive Op where
  | deploy (meta : FunctionMetadata) (ext : DeployExt)
  | rollbackOp (alias0 funcName targetVersion : String) (ext : StartExt)
  | deleteVer (funcName ver : String) (ext : DeleteExt)

/-- Apply one operation, keeping only the state and the error. -/
def applyOp (r : RegState) : Op → RegState × Option RegError
  | .deploy m ext => registerOrUpdate r m ext
  | .rollbackOp a fn tv ext =>
    let res := rollback r a fn tv ext
    (res.1, res.2.2)
  | .deleteVer fn v ext => deleteVersion r fn v ext

/-- Well-formed operation: the function name it registers or addresses is
colon-free, as the spec's name grammar `[a-zA-Z0-9_-]+` guarantees. -/
def opWF : Op → Bool
  | .deploy m _ => noColon m.name
  | .rollbackOp _ fn _ _ => noColon fn
  | .deleteVer fn _ _ => noColon fn

/-- Run a sequence of operations, reporting `none` as soon as one fails. -/
def runOk : RegState → List Op → Option RegState
  | r, [] => some r
  | r, op :: ops =>
    match applyOp r op with
    | (r1, none) => runOk r1 ops
    | (_, some _) => none

/-- Alias-index consistency: every alias entry `name:alias ↦ v` (with a
colon-free name, so the key decomposes uniquely) references a version of
that function present in `versionMap`. -/
def aliasConsistent (r : RegState) : Prop :=
  ∀ fn al v, noColon fn = true →
    alookup r.aliasMap (fn ++ ":" ++ al) = some v →
    (alookup r.versionMap (fn ++ ":" ++ v)).isSome = true

/-! ### The database serialization of the env map (`JSONMap`, registry.go:495-519)

`JSONMap.Value` returns the literal string `"{}"` for a nil map and
`json.Marshal(m)` (a byte slice) otherwise; `JSONMap.Scan` turns a NULL
into a fresh empty map and otherwise `json.Unmarshal`s the text.
`encoding/json` is embedded for the fragment these methods exercise:
objects whose keys and values are strings.  `Marshal` walks the map in
ascending key order, so the model takes the entry list (in that order)
as the map's representative; `Unmarshal` is a recursive-descent reader
of the same object grammar (whitespace-free, as `Marshal` emits it, and
without surrogate-pair recombination, which `Marshal` output never
needs). -/

/-- Lowercase hex digit, as `encoding/json` writes `\u00xx` escapes. -/
def hexDigitChar (n : Nat) : Char :=
  if n < 10 then Char.ofNat (48 + n) else Char.ofNat (87 + n)

/-- A six-character `\uXXXX` escape for a code point below `0x10000`. -/
def uEscape (n : Nat) : List Char :=
  [Char.ofNat 92, Char.ofNat 117,
   hexDigitChar (n / 4096 % 16), hexDigitChar (n / 256 % 16),
   hexDigitChar (n / 16 % 16), hexDigitChar (n % 16)]

/-- How `encoding/json` (with its default HTML escaping) renders one
character inside a quoted string: `"` and `\` get a backslash, `\n`,
`\r`, `\t` their short escapes, other control characters `\u00xx`, the
HTML-sensitive `<`, `>`, `&` and the line separators U+2028/U+2029 their
`\uXXXX` forms, everything else stands for itself. -/
def escapeChar (c : Char) : List Char :=
  if c.toNat = 34 then [Char.ofNat 92, Char.ofNat 34]
  else if c.toNat = 92 then [Char.ofNat 92, Char.ofNat 92]
  else if c.toNat = 10 then [Char.ofNat 92, Char.ofNat 110]
  else if c.toNat = 13 then [Char.ofNat 92, Char.ofNat 114]
  else if c.toNat = 9 then [Char.ofNat 92, Char.ofNat 116]
  else if c.toNat < 32 then uEscape c.toNat
  else if c.toNat = 60 || c.toNat = 62 || c.toNat = 38
       || c.toNat = 8232 || c.toNat = 8233 then uEscape c.toNat
  else [c]

/-- The body of a JSON string literal for `s`. -/
def escapeString (s : String) : List Char :=
  s.data.flatMap escapeChar

/-- One `"key":"value"` member. -/
def renderPairChars (kv : String × String) : List Char :=
  Char.ofNat 34 :: escapeString kv.1
    ++ Char.ofNat 34 :: Char.ofNat 58 :: Char.ofNat 34 :: escapeString kv.2
    ++ [Char.ofNat 34]

/-- The comma-separated members of an object. -/
def renderMembersChars : List (String × String) → List Char
  | [] => []
  | [kv] => renderPairChars kv
  | kv :: rest => renderPairChars kv ++ Char.ofNat 44 :: renderMembersChars rest

/-- `json.Marshal` of a `map[string]string` whose entries, in ascending
key order, are `m`. -/
def jsonMarshalAssoc (m : List (String × String)) : String :=
  ⟨Char.ofNat 123 :: renderMembersChars m ++ [Char.ofNat 125]⟩

/-- Numeric value of one hex digit, upper or lower case. -/
def parseHexDigit (c : Char) : Option Nat :=
  if 48 ≤ c.toNat && c.toNat ≤ 57 then some (c.toNat - 48)
  else if 97 ≤ c.toNat && c.toNat ≤ 102 then some (c.toNat - 87)
  else if 65 ≤ c.toNat && c.toNat ≤ 70 then some (c.toNat - 55)
  else none

/-- Read a JSON string body (the opening quote already consumed) up to its
closing quote, decoding every escape `encoding/json` knows; returns the
decoded string and the rest of the input. -/
def parseStringBody : List Char → List Char → Option (String × List Char)
  | [], _ => none
  | c :: rest, acc =>
    if c.toNat = 34 then some (⟨acc.reverse⟩, rest)
    else if c.toNat = 92 then
      match rest with
      | [] => none
      | e :: rest1 =>
        if e.toNat = 34 then parseStringBody rest1 (Char.ofNat 34 :: acc)
        else if e.toNat = 92 then parseStringBody rest1 (Char.ofNat 92 :: acc)
        else if e.toNat = 47 then parseStringBody rest1 (Char.ofNat 47 :: acc)
        else if e.toNat = 98 then parseStringBody rest1 (Char.ofNat 8 :: acc)
        else if e.toNat = 102 then parseStringBody rest1 (Char.ofNat 12 :: acc)
        else if e.toNat = 110 then parseStringBody rest1 (Char.ofNat 10 :: acc)
        else if e.toNat = 114 then parseStringBody rest1 (Char.ofNat 13 :: acc)
        else if e.toNat = 116 then parseStringBody rest1 (Char.ofNat 9 :: acc)
        else if e.toNat = 117 then
          match rest1 with
          | h1 :: h2 :: h3 :: h4 :: rest2 =>
            match parseHexDigit h1, parseHexDigit h2, parseHexDigit h3, parseHexDigit h4 with
            | some d1, some d2, some d3, some d4 =>
              parseStringBody rest2 (Char.ofNat (((d1 * 16 + d2) * 16 + d3) * 16 + d4) :: acc)
            | _, _, _, _ => none
          | _ => none
        else none
    else parseStringBody rest (c :: acc)

/-- Read one `"key":"value"` member; returns it and the rest of the input. -/
def parsePair (l : List Char) : Option ((String × String) × List Char) :=
  match l with
  | [] => none
  | c :: rest =>
    if c.toNat = 34 then
      match parseStringBody rest [] with
      | none => none
      | some (k, rest1) =>
        match rest1 with
        | c1 :: c2 :: rest2 =>
          if c1.toNat = 58 && c2.toNat = 34 then
            match parseStringBody rest2 [] with
            | none => none
            | some (v, rest3) => some ((k, v), rest3)
          else none
        | _ => none
    else none

/-- Read the members of a non-empty object, the opening brace already
consumed, consuming the closing brace; fuelled by the input length. -/
def parseMembers : Nat → List Char → Option (List (String × String))
  | 0, _ => none
  | fuel + 1, l =>
    match parsePair l with
    | none => none
    | some (kv, rest) =>
      match rest with
      | [c] => if c.toNat = 125 then some [kv] else none
      | c :: rest1 =>
        if c.toNat = 44 then (parseMembers fuel rest1).map (fun t => kv :: t) else none
      | [] => none

/-- Read a whole string-to-string JSON object. -/
def parseObjChars (l : List Char) : Option (List (String × String)) :=
  match l with
  | [] => none
  | c :: rest =>
    if c.toNat = 123 then
      match rest with
      | [c1] => if c1.toNat = 125 then some [] else none
      | _ => parseMembers rest.length rest
    else none

/-- `json.Unmarshal` of a string-map object into a fresh map. -/
def jsonUnmarshalObj (s : String) : Except String (List (String × String)) :=
  match parseObjChars s.data with
  | some m => .ok m
  | none => .error "unmarshal"

/-- A `database/sql/driver` value as `Value`/`Scan` see it. -/
inductive DBValue where
  | null
  | str (s : String)
  | bytes (s : String)
  | other
deriving DecidableEq

/-- `JSONMap.Value` (registry.go:497-502): a nil map becomes the literal
string `"{}"`; otherwise `json.Marshal` (a byte slice).  The argument is
`none` for the nil map and `some m` for a map with (sorted) entries `m`. -/
def jsonMapValue : Option (List (String × String)) → DBValue
  | none => .str "\x7b\x7d"
  | some m => .bytes (jsonMarshalAssoc m)

/-- `JSONMap.Scan` (registry.go:504-519): NULL yields a fresh empty map,
strings and byte slices are unmarshalled, anything else is rejected. -/
def jsonMapScan : DBValue → Except String (List (String × String))
  | .null => .ok []
  | .str s => jsonUnmarshalObj s
  | .bytes s => jsonUnmarshalObj s
  | .other => .error "unsupported type"

/-! ### Concrete fixtures used by the closed evaluations -/

/-- The zero `WorkerdConfig`, as a fresh deploy request builds it. -/
def emptyWorkerd : WorkerdConfig :=
  { port := 0, confPath := "", codePath := "", logPath := "", pid := 0 }

/-- A record exactly as `DeployHandler` (api/handler.go:57-67) assembles
it: subdomain `{version}.{name}.func.local`, runtime `js`, zero process
handle. -/
def mkMeta (name ver al code : String) : FunctionMetadata :=
  { id := 0, createdAt := 0, updatedAt := 0, deletedAt := none,
    name := name, subdomain := versionSubdomain name ver, runtime := "js",
    code := code, envVars := [], version := ver, aliasName := al,
    workerd := emptyWorkerd }

/-- An all-succeeding start oracle (the OS hands out pid 11). -/
def okStartExt : StartExt :=
  { writeCodeOk := true, writeConfOk := true, openLogOk := true,
    spawnOk := true, pid := 11, waitOk := true }

/-- A second all-succeeding start oracle (pid 12). -/
def okStartExt2 : StartExt :=
  { writeCodeOk := true, writeConfOk := true, openLogOk := true,
    spawnOk := true, pid := 12, waitOk := true }

/-- An all-succeeding stop oracle: both signals delivered, wait clean. -/
def okStopExt : StopExt :=
  { findOk := true, sigZero := .delivered, sigTerm := .delivered,
    waitOutcome := .delivered }

/-- An all-succeeding per-record load oracle. -/
def okLoadExt : LoadExt :=
  { freePort := some 40031, start := okStartExt }

/-- The record of end-to-end scenario 4: `envTest` v1 with
`env_vars = {APP_ENV: "production"}`. -/
def envTestMeta : FunctionMetadata :=
  { mkMeta ("envTest") ("v1") ("") ("addEventListener(...)") with
      envVars := [(("APP_ENV"), ("production"))] }

/-- `hello` version v1, no alias. -/
def helloV1 : FunctionMetadata :=
  mkMeta ("hello") ("v1") ("") ("return v1")

/-- `hello` version v2, no alias. -/
def helloV2 : FunctionMetadata :=
  mkMeta ("hello") ("v2") ("") ("return v2")

/-- `hello` version v1 deployed with the explicit alias `latest`. -/
def helloV1latest : FunctionMetadata :=
  mkMeta ("hello") ("v1") ("latest") ("return v1")

/-- Deploy oracle: port 40001, pid 11, clock 100, save succeeds. -/
def okDeployExt : DeployExt :=
  { freePort := some 40001, start := okStartExt, now := 100, saveOk := true }

/-- Deploy oracle: port 40002, pid 12, clock 200, save succeeds. -/
def okDeployExt2 : DeployExt :=
  { freePort := some 40002, start := okStartExt2, now := 200, saveOk := true }

/-- A deploy oracle whose port allocation fails at once. -/
def portFailExt : DeployExt :=
  { freePort := none, start := okStartExt, now := 5, saveOk := true }

/-- An all-succeeding delete oracle. -/
def okDeleteExt : DeleteExt :=
  { stop := okStopExt, dbOk := true }

/-- C4 scenario: deploy v1 and v2 of `hello`, then roll back to v1 with an
empty alias argument (end-to-end scenario 3). -/
def c4ops : List Op :=
  [.deploy helloV1 okDeployExt,
   .deploy helloV2 okDeployExt2,
   .rollbackOp ("") ("hello") ("v1") okStartExt]

/-- C6 scenario: deploy v1 with alias `latest`, deploy v2 without alias,
then delete v1. -/
def c6ops : List Op :=
  [.deploy helloV1latest okDeployExt,
   .deploy helloV2 okDeployExt2,
   .deleteVer ("hello") ("v1") okDeleteExt]

/-- A state holding exactly `hello:v1` (pid 7), used to witness the
rollback characterization. -/
def c4meta : FunctionMetadata :=
  { helloV1 with workerd := { emptyWorkerd with port := 40001, pid := 7 } }

/-- The witness state for the rollback characterization. -/
def c4state : RegState :=
  { funcs := [(("hello"), c4meta)],
    subdomainMap := [(("v1.hello.func.local"), ("hello:v1"))],
    versionMap := [(("hello:v1"), c4meta)],
    aliasMap := [(("hello:latest"), ("v1"))],
    storageDir := "/s" }

/-- A stopped-record fixture for C8: pid 5, port 8080. -/
def c8meta : FunctionMetadata :=
  { mkMeta ("hello") ("v1") ("") ("return v1") with
      workerd := { port := 8080, confPath := "/s/hello.capnp",
                   codePath := "/s/hello.js", logPath := "/s/hello.log", pid := 5 } }

/-- A live database row for the C9 witness. -/
def c9live : FunctionMetadata :=
  { helloV1 with updatedAt := 10 }

/-- A soft-deleted database row for the C9 witness. -/
def c9deleted : FunctionMetadata :=
  { helloV2 with updatedAt := 20, deletedAt := some 30 }

/-- The record the C9 witness finds in the rebuilt version index. -/
def c9loaded : FunctionMetadata :=
  (alookup (loadFromDB ("/s") [c9live, c9deleted] [okLoadExt]).versionMap
    ("hello:v1")).getD c9live

/-! ### Witness fixtures -/

/-- The fallback `GenResult` used only to close the `Option`/`Except`
projections of witness definitions. -/
def emptyGenResult : GenResult :=
  { meta := helloV1, codePath := "", codeContent := "", confPath := "", confContent := "" }

/-- The template-writer output for `hello` v1 in the C7 witness. -/
def c7g : GenResult :=
  match generateWorkerdFiles ("/w") helloV1 okStartExt with
  | .ok g => g
  | .error _ => emptyGenResult

/-- One well-formed deploy, the C6 witness scenario. -/
def c6wOps : List Op :=
  [.deploy helloV1latest okDeployExt]

/-- The state the C6 witness scenario reaches. -/
def c6wState : RegState :=
  (runOk (emptyState ("/w")) c6wOps).getD (emptyState ("/w"))

/-! ### Association-list and string lemmas -/

theorem alookup_ainsert {α : Type} (m : List (String × α)) (k k' : String) (v : α) :
    alookup (ainsert m k v) k' = if k = k' then some v else alookup m k' := by
  induction m with
  | nil =>
    by_cases h : k = k' <;> simp [ainsert, alookup, h]
  | cons p t ih =>
    simp only [ainsert]
    by_cases hp : p.1 = k
    · rw [if_pos hp]
      by_cases h : k = k'
      · simp [alookup, h]
      · have hpk : ¬ p.1 = k' := fun hc => h (by rw [← hp, hc])
        simp [alookup, h, hpk]
    · rw [if_neg hp]
      by_cases h : p.1 = k'
      · have hk : ¬ k = k' := fun hkk => hp (hkk ▸ h)
        simp [alookup, h, hk]
      · simp [alookup, h, ih]

theorem alookup_ainsert_isSome {α : Type} (m : List (String × α)) (k k' : String) (v : α)
    (h : (alookup m k').isSome = true) :
    (alookup (ainsert m k v) k').isSome = true := by
  rw [alookup_ainsert]
  by_cases hk : k = k' <;> simp [hk, h]

theorem alookup_aerase {α : Type} (m : List (String × α)) (k k' : String) :
    alookup (aerase m k) k' = if k = k' then none else alookup m k' := by
  induction m with
  | nil => by_cases h : k = k' <;> simp [aerase, alookup, h]
  | cons p t ih =>
    simp only [aerase]
    by_cases hp : p.1 = k
    · rw [if_pos hp, ih]
      by_cases h : k = k'
      · simp [h]
      · have hpk' : ¬ p.1 = k' := fun hc => h (by rw [← hp, hc])
        simp [alookup, h, hpk']
    · rw [if_neg hp]
      by_cases h : p.1 = k'
      · have hk : ¬ k = k' := fun hkk => hp (by rw [hkk, h])
        simp [alookup, h, hk]
      · simp [alookup, h, ih]

theorem alookup_some_mem {α : Type} :
    ∀ (m : List (String × α)) (k : String) (v : α), alookup m k = some v → (k, v) ∈ m := by
  intro m
  induction m with
  | nil => intro k v h; simp [alookup] at h
  | cons p t ih =>
    intro k v h
    simp only [alookup] at h
    by_cases hp : p.1 = k
    · rw [if_pos hp] at h
      have hv : p.2 = v := Option.some.inj h
      have hpe : p = (k, v) := by
        cases p with
        | mk a b =>
          simp only at hp hv
          rw [hp, hv]
      rw [← hpe]
      exact List.mem_cons_self p t
    · rw [if_neg hp] at h
      exact List.mem_cons_of_mem _ (ih k v h)

theorem foldl_deleteAliasStep_aliasMap (fn : String) :
    ∀ (l : List (String × String)) (r : RegState),
      (l.foldl (deleteAliasStep fn) r).aliasMap
        = l.foldl (fun a kv => aerase a kv.1) r.aliasMap := by
  intro l
  induction l with
  | nil => intro r; rfl
  | cons kv t ih => intro r; simpa [deleteAliasStep] using ih (deleteAliasStep fn r kv)

theorem foldl_deleteAliasStep_versionMap (fn : String) :
    ∀ (l : List (String × String)) (r : RegState),
      (l.foldl (deleteAliasStep fn) r).versionMap = r.versionMap := by
  intro l
  induction l with
  | nil => intro r; rfl
  | cons kv t ih => intro r; simpa [deleteAliasStep] using ih (deleteAliasStep fn r kv)

theorem alookup_foldl_aerase :
    ∀ (l : List (String × String)) (A : List (String × String)) (k : String),
      alookup (l.foldl (fun a kv => aerase a kv.1) A) k
        = if k ∈ l.map (fun kv => kv.1) then none else alookup A k := by
  intro l
  induction l with
  | nil => intro A k; simp
  | cons kv t ih =>
    intro A k
    simp only [List.foldl_cons, List.map_cons, List.mem_cons]
    rw [ih]
    by_cases hk : k = kv.1
    · by_cases hm : k ∈ t.map (fun kv => kv.1) <;>
        simp [hk, hm, alookup_aerase]
    · have h2 : ¬ kv.1 = k := fun h => hk h.symm
      by_cases hm : k ∈ t.map (fun kv => kv.1) <;>
        simp [hk, hm, alookup_aerase, h2]

theorem sep_split_unique (sep : Char) :
    ∀ (a b x y : List Char), sep ∉ a → sep ∉ b →
      a ++ sep :: x = b ++ sep :: y → a = b ∧ x = y := by
  intro a
  induction a with
  | nil =>
    intro b x y _ hb h
    cases b with
    | nil => simpa using h
    | cons d u =>
      simp only [List.nil_append, List.cons_append, List.cons.injEq] at h
      exact absurd (h.1 ▸ List.mem_cons_self d u) hb
  | cons c t ih =>
    intro b x y ha hb h
    cases b with
    | nil =>
      simp only [List.cons_append, List.nil_append, List.cons.injEq] at h
      exact absurd (h.1 ▸ List.mem_cons_self c t) ha
    | cons d u =>
      simp only [List.cons_append, List.cons.injEq] at h
      have hc := ih u x y (fun hm => ha (List.mem_cons_of_mem c hm))
        (fun hm => hb (List.mem_cons_of_mem d hm)) h.2
      exact ⟨by rw [h.1, hc.1], hc.2⟩

theorem noColon_notMem {s : String} (h : noColon s = true) : Char.ofNat 58 ∉ s.data := by
  simpa [noColon] using h

theorem key_data (a b : String) :
    (a ++ ":" ++ b).data = a.data ++ Char.ofNat 58 :: b.data := by
  have hcolon : (":" : String).data = [Char.ofNat 58] := by decide
  simp [String.data_append, hcolon]

theorem key_cancel (fn al g be : String) (hfn : noColon fn = true) (hg : noColon g = true)
    (h : fn ++ ":" ++ al = g ++ ":" ++ be) : fn = g ∧ al = be := by
  have hd : fn.data ++ Char.ofNat 58 :: al.data = g.data ++ Char.ofNat 58 :: be.data := by
    have := congrArg String.data h
    simpa [key_data] using this
  have hres := sep_split_unique (Char.ofNat 58) fn.data g.data al.data be.data
    (noColon_notMem hfn) (noColon_notMem hg) hd
  exact ⟨String.ext hres.1, String.ext hres.2⟩

theorem startsWithChars_append (p r : List Char) : startsWithChars (p ++ r) p = true := by
  induction p with
  | nil => cases r <;> simp [startsWithChars]
  | cons c t ih => simp [startsWithChars, ih]

theorem goStartsWith_key (fn al : String) :
    goStartsWith (fn ++ ":" ++ al) (fn ++ ":") = true := by
  have hd : (fn ++ ":" ++ al).data = (fn ++ ":").data ++ al.data := String.data_append _ _
  rw [goStartsWith, hd]
  exact startsWithChars_append _ _

theorem splitAux_ne_nil (sep : Char) : ∀ (l acc : List Char), splitAux sep l acc ≠ [] := by
  intro l
  induction l with
  | nil => intro acc; simp [splitAux]
  | cons c t ih =>
    intro acc
    by_cases h : c = sep <;> simp [splitAux, h, ih]

/-! ### Field preservation through the supervisor -/

theorem generateWorkerdFiles_meta (dir : String) (m : FunctionMetadata) (ext : StartExt)
    (g : GenResult) (h : generateWorkerdFiles dir m ext = .ok g) :
    g.meta = { m with workerd := { m.workerd with
        codePath := joinPath dir (m.name ++ ".js"),
        confPath := joinPath dir (m.name ++ ".capnp"),
        logPath := joinPath dir (m.name ++ ".log") } } ∧
    g.codePath = joinPath dir (m.name ++ ".js") ∧
    g.codeContent = m.code ∧
    g.confPath = joinPath dir (m.name ++ ".capnp") ∧
    g.confContent = confTemplate m.name (m.name ++ ".js") m.workerd.port := by
  unfold generateWorkerdFiles at h
  split at h
  · exact absurd h (by simp)
  · split at h
    · exact absurd h (by simp)
    · have hg := Except.ok.inj h
      rw [← hg]
      exact ⟨rfl, rfl, rfl, rfl, rfl⟩

theorem startWorkerd_ok_meta (dir : String) (m : FunctionMetadata) (ext : StartExt)
    (m' : FunctionMetadata) (h : startWorkerd dir m ext = .ok m') :
    m' = { m with workerd := { m.workerd with
        codePath := joinPath dir (m.name ++ ".js"),
        confPath := joinPath dir (m.name ++ ".capnp"),
        logPath := joinPath dir (m.name ++ ".log"),
        pid := ext.pid } } := by
  unfold startWorkerd at h
  split at h
  · exact absurd h (by simp)
  · rename_i g hg
    split at h
    · exact absurd h (by simp)
    · split at h
      · exact absurd h (by simp)
      · split at h
        · exact absurd h (by simp)
        · have hm := Except.ok.inj h
          have hmeta := (generateWorkerdFiles_meta dir m ext g hg).1
          rw [← hm, hmeta]

theorem startWorkerd_fields (dir : String) (m : FunctionMetadata) (ext : StartExt)
    (m' : FunctionMetadata) (h : startWorkerd dir m ext = .ok m') :
    m'.name = m.name ∧ m'.version = m.version ∧ m'.aliasName = m.aliasName ∧
    m'.subdomain = m.subdomain ∧ m'.deletedAt = m.deletedAt ∧
    m'.updatedAt = m.updatedAt ∧ m'.workerd.port = m.workerd.port := by
  rw [startWorkerd_ok_meta dir m ext m' h]
  exact ⟨rfl, rfl, rfl, rfl, rfl, rfl, rfl⟩

/-! ### Preservation of alias-index consistency -/

theorem aliasConsistent_base
    (A : List (String × String)) (V : List (String × FunctionMetadata))
    (name ver : String) (mv : FunctionMetadata)
    (hc : ∀ fn al v, noColon fn = true → alookup A (fn ++ ":" ++ al) = some v →
          (alookup V (fn ++ ":" ++ v)).isSome = true) :
    ∀ fn al v, noColon fn = true → alookup A (fn ++ ":" ++ al) = some v →
      (alookup (ainsert V (versionKey name ver) mv) (fn ++ ":" ++ v)).isSome = true :=
  fun fn al v hfn h => alookup_ainsert_isSome _ _ _ _ (hc fn al v hfn h)

theorem aliasConsistent_insert_step
    (A : List (String × String)) (V : List (String × FunctionMetadata))
    (name x ver : String) (mv : FunctionMetadata)
    (hname : noColon name = true)
    (hc : ∀ fn al v, noColon fn = true → alookup A (fn ++ ":" ++ al) = some v →
          (alookup (ainsert V (versionKey name ver) mv) (fn ++ ":" ++ v)).isSome = true) :
    ∀ fn al v, noColon fn = true →
      alookup (ainsert A (aliasKey name x) ver) (fn ++ ":" ++ al) = some v →
      (alookup (ainsert V (versionKey name ver) mv) (fn ++ ":" ++ v)).isSome = true := by
  intro fn al v hfn hlook
  rw [alookup_ainsert] at hlook
  by_cases hk : aliasKey name x = fn ++ ":" ++ al
  · rw [if_pos hk] at hlook
    have hv : ver = v := Option.some.inj hlook
    have hcan := key_cancel name x fn al hname hfn (by simpa [aliasKey] using hk)
    have hkey : versionKey name ver = fn ++ ":" ++ v := by
      simp [versionKey, hcan.1, hv]
    rw [alookup_ainsert, if_pos hkey]
    rfl
  · rw [if_neg hk] at hlook
    exact hc fn al v hfn hlook


theorem deploy_leaf
    (r r' : RegState) (m meta2 : FunctionMetadata)
    (hwf : noColon m.name = true) (hc : aliasConsistent r)
    (hn2 : meta2.name = m.name) (hv2 : meta2.version = m.version)
    (hA : r'.aliasMap = ainsert (ainsert r.aliasMap (aliasKey m.name ("latest")) m.version)
          (aliasKey meta2.name meta2.aliasName) meta2.version)
    (hV : ∃ m3, r'.versionMap = ainsert r.versionMap (versionKey m.name m.version) m3) :
    aliasConsistent r' := by
  obtain ⟨m3, hV⟩ := hV
  intro fn al v hfn hlook
  rw [hA, hn2, hv2] at hlook
  rw [hV]
  exact aliasConsistent_insert_step _ _ _ _ _ _ hwf
    (aliasConsistent_insert_step _ _ _ _ _ _ hwf
      (aliasConsistent_base _ _ _ _ _ hc))
    fn al v hfn hlook

theorem deploy_leaf_noalias
    (r r' : RegState) (m : FunctionMetadata)
    (hwf : noColon m.name = true) (hc : aliasConsistent r)
    (hA : r'.aliasMap = ainsert r.aliasMap (aliasKey m.name ("latest")) m.version)
    (hV : ∃ m3, r'.versionMap = ainsert r.versionMap (versionKey m.name m.version) m3) :
    aliasConsistent r' := by
  obtain ⟨m3, hV⟩ := hV
  intro fn al v hfn hlook
  rw [hA] at hlook
  rw [hV]
  exact aliasConsistent_insert_step _ _ _ _ _ _ hwf
    (aliasConsistent_base _ _ _ _ _ hc) fn al v hfn hlook

theorem registerOrUpdate_aliasConsistent
    (r : RegState) (m : FunctionMetadata) (ext : DeployExt) (r' : RegState)
    (hwf : noColon m.name = true) (hc : aliasConsistent r)
    (h : registerOrUpdate r m ext = (r', none)) : aliasConsistent r' := by
  simp only [registerOrUpdate] at h
  split at h
  · exact absurd h (by simp)
  · split at h
    · exact absurd h (by simp)
    · rename_i meta2 hsw
      have hf := startWorkerd_fields _ _ _ _ hsw
      split at h
      · exact absurd h (by simp)
      · split at h
        · split at h
          · split at h
            · exact deploy_leaf r r' m meta2 hwf hc hf.1 hf.2.1
                (by rw [← ((Prod.mk.injEq _ _ _ _).mp h).1])
                ⟨_, by rw [← ((Prod.mk.injEq _ _ _ _).mp h).1]⟩
            · exact deploy_leaf r r' m meta2 hwf hc hf.1 hf.2.1
                (by rw [← ((Prod.mk.injEq _ _ _ _).mp h).1])
                ⟨_, by rw [← ((Prod.mk.injEq _ _ _ _).mp h).1]⟩
          · exact deploy_leaf r r' m meta2 hwf hc hf.1 hf.2.1
              (by rw [← ((Prod.mk.injEq _ _ _ _).mp h).1])
              ⟨_, by rw [← ((Prod.mk.injEq _ _ _ _).mp h).1]⟩
        · exact deploy_leaf_noalias r r' m hwf hc
            (by rw [← ((Prod.mk.injEq _ _ _ _).mp h).1])
            ⟨_, by rw [← ((Prod.mk.injEq _ _ _ _).mp h).1]⟩


theorem rollback_leaf
    (r r' : RegState) (fn a tv : String) (tm1 : FunctionMetadata)
    (hwf : noColon fn = true) (hc : aliasConsistent r)
    (hA : r'.aliasMap = ainsert r.aliasMap (aliasKey fn a) tv)
    (hV : r'.versionMap = ainsert r.versionMap (versionKey fn tv) tm1) :
    aliasConsistent r' := by
  intro fn' al v hfn hlook
  rw [hA] at hlook
  rw [hV]
  exact aliasConsistent_insert_step _ _ _ _ _ _ hwf
    (aliasConsistent_base _ _ _ _ _ hc) fn' al v hfn hlook

theorem rollback_leaf_noalias
    (r r' : RegState) (fn tv : String) (tm1 : FunctionMetadata)
    (hc : aliasConsistent r)
    (hA : r'.aliasMap = r.aliasMap)
    (hV : r'.versionMap = ainsert r.versionMap (versionKey fn tv) tm1) :
    aliasConsistent r' := by
  intro fn' al v hfn hlook
  rw [hA] at hlook
  rw [hV]
  exact aliasConsistent_base _ _ _ _ _ hc fn' al v hfn hlook

theorem rollback_aliasConsistent
    (r : RegState) (a fn tv : String) (ext : StartExt) (r' : RegState) (a' : String)
    (hwf : noColon fn = true) (hc : aliasConsistent r)
    (h : rollback r a fn tv ext = (r', a', none)) : aliasConsistent r' := by
  simp only [rollback] at h
  split at h
  · exact absurd h (by simp)
  · rename_i tm htm
    split at h
    · exact absurd h (by simp)
    · rename_i tm1 hst
      split at h
      · split at h
        · rename_i oldV hold
          split at h
          · exact rollback_leaf r r' fn a tv tm1 hwf hc
              (by rw [← ((Prod.mk.injEq _ _ _ _).mp h).1])
              (by rw [← ((Prod.mk.injEq _ _ _ _).mp h).1])
          · exact rollback_leaf r r' fn a tv tm1 hwf hc
              (by rw [← ((Prod.mk.injEq _ _ _ _).mp h).1])
              (by rw [← ((Prod.mk.injEq _ _ _ _).mp h).1])
        · exact rollback_leaf r r' fn a tv tm1 hwf hc
            (by rw [← ((Prod.mk.injEq _ _ _ _).mp h).1])
            (by rw [← ((Prod.mk.injEq _ _ _ _).mp h).1])
      · exact rollback_leaf_noalias r r' fn tv tm1 hc
          (by rw [← ((Prod.mk.injEq _ _ _ _).mp h).1])
          (by rw [← ((Prod.mk.injEq _ _ _ _).mp h).1])

theorem deleteVersion_aliasConsistent
    (r : RegState) (fn ver : String) (ext : DeleteExt) (r' : RegState)
    (hwf : noColon fn = true) (hc : aliasConsistent r)
    (h : deleteVersion r fn ver ext = (r', none)) : aliasConsistent r' := by
  simp only [deleteVersion] at h
  split at h
  · exact absurd h (by simp)
  · rename_i meta hm
    split at h
    · exact absurd h (by simp)
    · rename_i meta1 hstop
      split at h
      · exact absurd h (by simp)
      · have hst := ((Prod.mk.injEq _ _ _ _).mp h).1
        intro fn' al v hfn hlook
        rw [← hst] at hlook ⊢
        rw [foldl_deleteAliasStep_aliasMap] at hlook
        rw [alookup_foldl_aerase] at hlook
        rw [foldl_deleteAliasStep_versionMap]
        split at hlook
        · exact absurd hlook (by simp)
        · rename_i hnotmem
          rw [alookup_aerase]
          split
          · rename_i hkeq
            exfalso
            have hcan := key_cancel fn ver fn' v hwf hfn (by simpa [versionKey] using hkeq)
            apply hnotmem
            have hmem := alookup_some_mem _ _ _ hlook
            refine List.mem_map.mpr ⟨(fn' ++ ":" ++ al, v), List.mem_filter.mpr ⟨hmem, ?_⟩, rfl⟩
            have hv : v = ver := hcan.2.symm
            have hgs : goStartsWith (fn' ++ ":" ++ al) (fn ++ ":") = true := by
              rw [hcan.1]
              exact goStartsWith_key fn' al
            simp [hv, hgs]
          · exact hc fn' al v hfn hlook


theorem applyOp_aliasConsistent (r r' : RegState) (op : Op)
    (hwf : opWF op = true) (hc : aliasConsistent r) (h : applyOp r op = (r', none)) :
    aliasConsistent r' := by
  cases op with
  | deploy m ext =>
    exact registerOrUpdate_aliasConsistent r m ext r' (by simpa [opWF] using hwf) hc h
  | rollbackOp a fn tv ext =>
    simp only [applyOp] at h
    have h1 := ((Prod.mk.injEq _ _ _ _).mp h).1
    have h2 := ((Prod.mk.injEq _ _ _ _).mp h).2
    exact rollback_aliasConsistent r a fn tv ext r' (rollback r a fn tv ext).2.1
      (by simpa [opWF] using hwf) hc (by rw [← h1, ← h2])
  | deleteVer fn v ext =>
    exact deleteVersion_aliasConsistent r fn v ext r' (by simpa [opWF] using hwf) hc h

theorem runOk_aliasConsistent :
    ∀ (ops : List Op) (r r' : RegState),
      (∀ op ∈ ops, opWF op = true) → aliasConsistent r →
      runOk r ops = some r' → aliasConsistent r' := by
  intro ops
  induction ops with
  | nil =>
    intro r r' _ hc h
    simp [runOk] at h
    rw [← h]
    exact hc
  | cons op t ih =>
    intro r r' hwf hc h
    simp only [runOk] at h
    split at h
    · rename_i r1 happly
      exact ih r1 r' (fun o ho => hwf o (List.mem_cons_of_mem _ ho))
        (applyOp_aliasConsistent r r1 op (hwf op (List.mem_cons_self _ _)) hc happly) h
    · exact absurd h (by simp)

theorem emptyState_aliasConsistent (dir : String) : aliasConsistent (emptyState dir) := by
  intro fn al v _ hlook
  simp [emptyState, alookup] at hlook


theorem charToNat_ofNat {n : Nat} (h : n < 55296) : (Char.ofNat n).toNat = n := by
  unfold Char.ofNat
  rw [dif_pos (Or.inl h)]
  rfl

theorem parseHexDigit_hexDigitChar : ∀ n, n < 16 → parseHexDigit (hexDigitChar n) = some n := by
  decide

theorem parse_uEscape (n : Nat) (hn : n < 55296) (l acc : List Char) :
    parseStringBody (uEscape n ++ l) acc = parseStringBody l (Char.ofNat n :: acc) := by
  have hd1 : n / 4096 % 16 < 16 := Nat.mod_lt _ (by omega)
  have hd2 : n / 256 % 16 < 16 := Nat.mod_lt _ (by omega)
  have hd3 : n / 16 % 16 < 16 := Nat.mod_lt _ (by omega)
  have hd4 : n % 16 < 16 := Nat.mod_lt _ (by omega)
  have t92 : (Char.ofNat 92).toNat = 92 := by decide
  have t117 : (Char.ofNat 117).toNat = 117 := by decide
  have hval : (((n / 4096 % 16) * 16 + n / 256 % 16) * 16 + n / 16 % 16) * 16 + n % 16 = n := by
    omega
  simp only [uEscape, List.cons_append]
  simp only [parseStringBody, t92, t117,
    parseHexDigit_hexDigitChar _ hd1, parseHexDigit_hexDigitChar _ hd2,
    parseHexDigit_hexDigitChar _ hd3, parseHexDigit_hexDigitChar _ hd4]
  simp [hval]

theorem parseStringBody_escape :
    ∀ (s acc rest : List Char),
      parseStringBody (s.flatMap escapeChar ++ Char.ofNat 34 :: rest) acc
        = some (⟨acc.reverse ++ s⟩, rest) := by
  intro s
  induction s with
  | nil =>
    intro acc rest
    simp only [List.flatMap_nil, List.nil_append]
    rw [parseStringBody.eq_def]
    simp
  | cons c cs ih =>
    intro acc rest
    simp only [List.flatMap_cons, List.append_assoc]
    by_cases h34 : c.toNat = 34
    · have hc : c = Char.ofNat 34 := by rw [← h34, Char.ofNat_toNat]
      rw [escapeChar, if_pos h34]
      simp only [List.cons_append, List.nil_append]
      rw [parseStringBody.eq_def]
      simp [ih, hc]
    · by_cases h92 : c.toNat = 92
      · have hc : c = Char.ofNat 92 := by rw [← h92, Char.ofNat_toNat]
        rw [escapeChar, if_neg h34, if_pos h92]
        simp only [List.cons_append, List.nil_append]
        rw [parseStringBody.eq_def]
        simp [ih, hc]
      · by_cases h10 : c.toNat = 10
        · have hc : c = Char.ofNat 10 := by rw [← h10, Char.ofNat_toNat]
          rw [escapeChar, if_neg h34, if_neg h92, if_pos h10]
          simp only [List.cons_append, List.nil_append]
          rw [parseStringBody.eq_def]
          simp [ih, hc]
        · by_cases h13 : c.toNat = 13
          · have hc : c = Char.ofNat 13 := by rw [← h13, Char.ofNat_toNat]
            rw [escapeChar, if_neg h34, if_neg h92, if_neg h10, if_pos h13]
            simp only [List.cons_append, List.nil_append]
            rw [parseStringBody.eq_def]
            simp [ih, hc]
          · by_cases h9 : c.toNat = 9
            · have hc : c = Char.ofNat 9 := by rw [← h9, Char.ofNat_toNat]
              rw [escapeChar, if_neg h34, if_neg h92, if_neg h10, if_neg h13, if_pos h9]
              simp only [List.cons_append, List.nil_append]
              rw [parseStringBody.eq_def]
              simp [ih, hc]
            · by_cases hctl : c.toNat < 32
              · rw [escapeChar, if_neg h34, if_neg h92, if_neg h10, if_neg h13, if_neg h9,
                  if_pos hctl]
                rw [parse_uEscape c.toNat (by omega), Char.ofNat_toNat]
                simp [ih]
              · by_cases hspec : c.toNat = 60 || c.toNat = 62 || c.toNat = 38
                    || c.toNat = 8232 || c.toNat = 8233
                · rw [escapeChar, if_neg h34, if_neg h92, if_neg h10, if_neg h13, if_neg h9,
                    if_neg hctl, if_pos hspec]
                  have hlt : c.toNat < 55296 := by
                    simp only [Bool.or_eq_true, decide_eq_true_eq] at hspec
                    omega
                  rw [parse_uEscape c.toNat hlt, Char.ofNat_toNat]
                  simp [ih]
                · rw [escapeChar, if_neg h34, if_neg h92, if_neg h10, if_neg h13, if_neg h9,
                    if_neg hctl, if_neg hspec]
                  simp only [List.cons_append, List.nil_append, List.singleton_append]
                  rw [parseStringBody.eq_def]
                  simp [ih, h34, h92]


theorem parsePair_render (kv : String × String) (rest : List Char) :
    parsePair (renderPairChars kv ++ rest) = some (kv, rest) := by
  obtain ⟨k, v⟩ := kv
  have hk := parseStringBody_escape k.data []
    (Char.ofNat 58 :: Char.ofNat 34 :: (v.data.flatMap escapeChar ++ Char.ofNat 34 :: rest))
  have hv := parseStringBody_escape v.data [] rest
  simp only [List.reverse_nil, List.nil_append] at hk hv
  simp only [renderPairChars, escapeString, List.cons_append, List.append_assoc]
  rw [parsePair.eq_def]
  simp [hk, hv]

theorem renderPairChars_ne_nil (kv : String × String) : renderPairChars kv ≠ [] := by
  simp [renderPairChars]

theorem renderMembersChars_ne_nil (kv : String × String) (t : List (String × String)) :
    renderMembersChars (kv :: t) ≠ [] := by
  cases t with
  | nil => simpa [renderMembersChars] using renderPairChars_ne_nil kv
  | cons b u =>
    simp only [renderMembersChars]
    intro hcontra
    exact renderPairChars_ne_nil kv (List.append_eq_nil.mp hcontra).1

theorem le_renderMembersChars_length :
    ∀ (m : List (String × String)), m.length ≤ (renderMembersChars m).length := by
  intro m
  induction m with
  | nil => simp [renderMembersChars]
  | cons kv t ih =>
    cases t with
    | nil =>
      have : renderPairChars kv ≠ [] := renderPairChars_ne_nil kv
      have h1 : 1 ≤ (renderPairChars kv).length := by
        cases hrp : renderPairChars kv with
        | nil => exact absurd hrp this
        | cons z zs => simp
      simpa [renderMembersChars] using h1
    | cons b u =>
      simp only [renderMembersChars, List.length_append, List.length_cons] at ih ⊢
      omega

theorem parseMembers_render :
    ∀ (m : List (String × String)) (fuel : Nat), m ≠ [] → m.length ≤ fuel →
      parseMembers fuel (renderMembersChars m ++ [Char.ofNat 125]) = some m := by
  intro m
  induction m with
  | nil => intro fuel hne _; exact absurd rfl hne
  | cons kv t ih =>
    intro fuel _ hlen
    cases fuel with
    | zero => simp at hlen
    | succ f =>
      cases t with
      | nil =>
        simp only [renderMembersChars]
        rw [parseMembers.eq_def]
        simp [parsePair_render]
      | cons b u =>
        simp only [renderMembersChars, List.cons_append, List.append_assoc]
        obtain ⟨y, ys, hys⟩ : ∃ y ys, renderMembersChars (b :: u) ++ [Char.ofNat 125]
            = y :: ys := by
          cases hrm : renderMembersChars (b :: u) with
          | nil => exact absurd hrm (renderMembersChars_ne_nil b u)
          | cons z zs => exact ⟨z, zs ++ [Char.ofNat 125], by simp⟩
        have hparse := ih f (by simp) (by
          simp only [List.length_cons] at hlen ⊢
          omega)
        rw [hys] at hparse
        rw [parseMembers.eq_def, hys]
        simp [parsePair_render, hparse]

theorem parseObjChars_render (m : List (String × String)) :
    parseObjChars (Char.ofNat 123 :: (renderMembersChars m ++ [Char.ofNat 125])) = some m := by
  cases m with
  | nil =>
    rw [parseObjChars.eq_def]
    simp [renderMembersChars]
  | cons kv t =>
    obtain ⟨y, ys, hys⟩ : ∃ y ys, renderMembersChars (kv :: t) = y :: ys := by
      cases hrm : renderMembersChars (kv :: t) with
      | nil => exact absurd hrm (renderMembersChars_ne_nil kv t)
      | cons z zs => exact ⟨z, zs, rfl⟩
    obtain ⟨w, ws, hws⟩ : ∃ w ws, ys ++ [Char.ofNat 125] = w :: ws := by
      cases ys with
      | nil => exact ⟨Char.ofNat 125, [], rfl⟩
      | cons z zs => exact ⟨z, zs ++ [Char.ofNat 125], rfl⟩
    have hlen : (kv :: t).length ≤ (y :: w :: ws).length := by
      have h1 := le_renderMembersChars_length (kv :: t)
      have h2 : (renderMembersChars (kv :: t) ++ [Char.ofNat 125]).length
          = (y :: w :: ws).length := by
        rw [hys, List.cons_append, hws]
      simp only [List.length_append, List.length_cons] at h1 h2 ⊢
      omega
    have hpm := parseMembers_render (kv :: t) (y :: w :: ws).length (by simp) hlen
    rw [hys, List.cons_append, hws] at hpm
    rw [parseObjChars.eq_def, hys, List.cons_append, hws]
    simpa using hpm


theorem alookup_values_insert {α : Type} (P : α → Prop) (M : List (String × α))
    (key : String) (mv : α)
    (hP : ∀ k m, alookup M k = some m → P m) (hmv : P mv) :
    ∀ k m, alookup (ainsert M key mv) k = some m → P m := by
  intro k m h
  rw [alookup_ainsert] at h
  by_cases hk : key = k
  · rw [if_pos hk] at h
    exact (Option.some.inj h) ▸ hmv
  · rw [if_neg hk] at h
    exact hP k m h

theorem applyLatest_versionMap :
    ∀ (lv : List (String × String)) (r : RegState),
      (applyLatest r lv).versionMap = r.versionMap := by
  intro lv
  induction lv with
  | nil => intro r; rfl
  | cons kv t ih =>
    intro r
    simp only [applyLatest, List.foldl_cons] at ih ⊢
    rw [ih]
    split <;> rfl

theorem applyLatest_funcs :
    ∀ (lv : List (String × String)) (r : RegState),
      (applyLatest r lv).funcs = r.funcs := by
  intro lv
  induction lv with
  | nil => intro r; rfl
  | cons kv t ih =>
    intro r
    simp only [applyLatest, List.foldl_cons] at ih ⊢
    rw [ih]
    split <;> rfl

theorem loadStep_versionMap (r : RegState) (lv : List (String × String))
    (m2 : FunctionMetadata) :
    (loadStep r lv m2).1.versionMap
      = ainsert r.versionMap (versionKey m2.name m2.version) m2 := by
  simp only [loadStep]
  split <;> split <;> rfl

theorem loadStep_funcs_cases (r : RegState) (lv : List (String × String))
    (m2 : FunctionMetadata) :
    (loadStep r lv m2).1.funcs = ainsert r.funcs m2.name m2 ∨
    (loadStep r lv m2).1.funcs = r.funcs := by
  simp only [loadStep]
  split <;> split <;> simp

theorem loadAux_deletedAt (dir : String) :
    ∀ (ms : List FunctionMetadata) (exts : List LoadExt)
      (r : RegState) (lv : List (String × String)),
      (∀ m ∈ ms, m.deletedAt = none) →
      (∀ k m, alookup r.versionMap k = some m → m.deletedAt = none) →
      (∀ k m, alookup r.funcs k = some m → m.deletedAt = none) →
      (∀ k m, alookup (loadAux dir ms exts r lv).1.versionMap k = some m →
        m.deletedAt = none) ∧
      (∀ k m, alookup (loadAux dir ms exts r lv).1.funcs k = some m →
        m.deletedAt = none) := by
  intro ms
  induction ms with
  | nil =>
    intro exts r lv _ hv hf
    exact ⟨hv, hf⟩
  | cons mm t ih =>
    intro exts r lv hms hv hf
    have hmm : mm.deletedAt = none := hms mm (List.mem_cons_self _ _)
    have hts : ∀ m ∈ t, m.deletedAt = none :=
      fun m hm => hms m (List.mem_cons_of_mem _ hm)
    rw [loadAux.eq_def]
    simp only
    split
    · exact ih _ r lv hts hv hf
    · rename_i p hport
      split
      · exact ih _ r lv hts hv hf
      · rename_i m2 hsw
        have hm2 : m2.deletedAt = none := by
          have hfld := startWorkerd_fields _ _ _ _ hsw
          rw [hfld.2.2.2.2.1]
          exact hmm
        apply ih _ _ _ hts
        · rw [loadStep_versionMap]
          exact alookup_values_insert _ _ _ _ hv hm2
        · rcases loadStep_funcs_cases r lv m2 with hcase | hcase
          · rw [hcase]
            exact alookup_values_insert _ _ _ _ hf hm2
          · rw [hcase]
            exact hf



/-! ### The claims -/

set_option maxRecDepth 4000 in
/-- Claim C1.  The claim says the rendered sandbox configuration artifact
carries one `(name, value)` binding per entry of the record's env map.
The code does not: the template of `generateWorkerdFiles` interpolates
only the service name, the code file and the port, and never calls
`genWorkerdEnv`; for the `envTest` record of end-to-end scenario 4 the
rendered artifact does not even contain the substring `APP_ENV`, while
the unused helper `genWorkerdEnv` would have rendered exactly the missing
binding.  The artifact is also bit-identical when the env map is emptied. -/
theorem claim1_conf_has_no_env_bindings :
    (generateWorkerdFiles ("/s") envTestMeta okStartExt).map (fun g => g.confContent)
      = .ok (confTemplate ("envTest") ("envTest.js") 0) ∧
    strContains (confTemplate ("envTest") ("envTest.js") 0) ("APP_ENV") = false ∧
    strContains (genWorkerdEnv envTestMeta.envVars)
      (envBindingLine ("APP_ENV") ("production")) = true ∧
    envTestMeta.envVars = [(("APP_ENV"), ("production"))] ∧
    (generateWorkerdFiles ("/s") { envTestMeta with envVars := [] } okStartExt).map
        (fun g => g.confContent)
      = (generateWorkerdFiles ("/s") envTestMeta okStartExt).map (fun g => g.confContent) := by
  refine ⟨rfl, by decide, by decide, rfl, rfl⟩

/-- Claim C2.  The readiness probe that `startWorkerd` calls builds its
dial address as `net.JoinHostPort(host, string(rune(port)))`
(registry/util.go:24): the port becomes the single Unicode character with
that code point, not its decimal rendering.  For port 8080 the probed
address differs from `127.0.0.1:8080`, which is what the parallel
`util.WaitPortListening` (strconv.Itoa) correctly produces. -/
theorem claim2_probe_address_not_decimal :
    waitPortAddr ("127.0.0.1") 8080 ≠ utilWaitPortAddr ("127.0.0.1") 8080 ∧
    utilWaitPortAddr ("127.0.0.1") 8080 = "127.0.0.1:8080" ∧
    waitPortAddr ("127.0.0.1") 8080 = "127.0.0.1:" ++ goStringOfRune 8080 := by
  refine ⟨by decide, by decide, by decide⟩

/-- Claim C3.  `RegisterOrUpdate` repoints `aliasMap[name:latest]` before
the first fallible step, so a deploy whose port allocation fails returns
an error with the alias index already mutated: on the empty registry the
failed deploy of `hello` v1 leaves `hello:latest ↦ v1` behind, where the
claim demands all four maps unchanged. -/
theorem claim3_failed_deploy_mutates_alias_index :
    registerOrUpdate (emptyState ("/s")) helloV1 portFailExt
      = ({ emptyState ("/s") with aliasMap := [(("hello:latest"), ("v1"))] },
         some RegError.portExhausted) ∧
    alookup (emptyState ("/s")).aliasMap ("hello:latest") = none := by
  refine ⟨by decide, by decide⟩


/-- Claim C4.  The claim as stated fails: a successful `Rollback` does not
repoint the `name:latest` alias entry (it touches the alias map only when
the alias argument is non-empty, and then only at that alias), so the
`latest.{name}.func.local` subdomain keeps resolving to the previously
latest version.  Amended characterization: when `(name, targetVersion)`
is absent, `Rollback` returns not-found and changes nothing; a successful
rollback with empty alias argument writes the (possibly restarted) target
record into `versionMap` and `funcs[name]` — whence the bare-function
subdomain resolves to the target through the name-fallback tier — and
registers `{targetAlias}.{name}.func.local`, leaving the alias map,
including `name:latest`, unchanged. -/
theorem claim4_rollback_characterization
    (r : RegState) (a fn tv : String) (ext : StartExt) :
    (alookup r.versionMap (versionKey fn tv) = none →
      rollback r a fn tv ext = (r, a, some RegError.versionNotFound)) ∧
    (∀ tm tm1, alookup r.versionMap (versionKey fn tv) = some tm →
      rollbackStart r tm ext = .ok tm1 → a = "" →
      rollback r a fn tv ext =
        ({ r with
             versionMap := ainsert r.versionMap (versionKey fn tv) tm1,
             funcs := ainsert r.funcs fn tm1,
             subdomainMap := ainsert r.subdomainMap (aliasSubdomain fn tm1.aliasName)
               (versionKey fn tv) },
         tm1.aliasName, none)) := by
  constructor
  · intro h
    simp [rollback, h]
  · intro tm tm1 htm hstart ha
    subst ha
    simp [rollback, htm, hstart]

/-- Claim C4, witness: on a registry holding `hello:v1` with a live pid,
rollback to the existing v1 succeeds with the characterized state, and
rollback to the absent v9 fails leaving the state untouched. -/
theorem claim4_witness :
    rollback c4state ("") ("hello") ("v1") okStartExt =
      ({ c4state with
           versionMap := ainsert c4state.versionMap (versionKey ("hello") ("v1")) c4meta,
           funcs := ainsert c4state.funcs ("hello") c4meta,
           subdomainMap := ainsert c4state.subdomainMap
             (aliasSubdomain ("hello") c4meta.aliasName) (versionKey ("hello") ("v1")) },
       c4meta.aliasName, none) ∧
    rollback c4state ("") ("hello") ("v9") okStartExt
      = (c4state, "", some RegError.versionNotFound) :=
  ⟨(claim4_rollback_characterization c4state ("") ("hello") ("v1") okStartExt).2
      c4meta c4meta (by rfl) (by rfl) rfl,
   (claim4_rollback_characterization c4state ("") ("hello") ("v9") okStartExt).1 (by rfl)⟩

/-- Claim C4, counterexample: deploy `hello` v1 then v2, roll back to v1
with empty alias (end-to-end scenario 3); every operation succeeds, yet
`latest.hello.func.local` still resolves to the v2 record and
`aliasMap[hello:latest]` still reads v2 — the claim demanded both to
point at the rollback target v1.  The bare `hello.func.local` does
resolve to v1, via the funcs fallback. -/
theorem claim4_counterexample :
    (runOk (emptyState ("/s")) c4ops).map (fun st =>
      ((proxyResolve st ("latest.hello.func.local")).map (fun m => m.version),
       (proxyResolve st ("hello.func.local")).map (fun m => m.version),
       alookup st.aliasMap ("hello:latest")))
      = some (some ("v2"), some ("v1"), some ("v2")) ∧
    ("v2" : String) ≠ "v1" := by
  refine ⟨by decide, by decide⟩

/-- Claim C5.  Host resolution is exactly the three-tier chain the claim
describes: an exact subdomain lookup reaching a record; else the host is
split on dots, the first label read as alias and the second as function
name through the alias map; else the first label read as a function name
whose per-name latest record (the `funcs` entry) is returned; a miss is
a 404 (an empty Host is rejected as 400 before resolution starts). -/
theorem claim5_three_tier_resolution (r : RegState) (host : String) :
    proxyResolve r host = resolveSpec r host ∧
    proxyHandler r host =
      (if host = "" then ProxyOutcome.badRequest
       else
         match resolveSpec r host with
         | none => ProxyOutcome.notFound
         | some m => ProxyOutcome.forward m.workerd.port) := by
  have heq : proxyResolve r host = resolveSpec r host := by
      unfold proxyResolve resolveSpec getBySubdomain getByAlias getByName getByVersion
      cases h1 : alookup r.subdomainMap host with
      | some vk =>
        cases h2 : alookup r.versionMap vk with
        | some m => simp [h2]
        | none =>
          simp only [h2, Option.bind]
          cases hs : goSplit host (Char.ofNat 46) with
          | nil => exact absurd hs (splitAux_ne_nil _ _ _)
          | cons a rest =>
            cases rest with
            | nil => simp [aliasKey]
            | cons b rest2 =>
              cases h3 : alookup r.aliasMap (b ++ ":" ++ a) with
              | none => simp [aliasKey, h3]
              | some v =>
                cases h4 : alookup r.versionMap (b ++ ":" ++ v) <;>
                  simp [aliasKey, versionKey, h3, h4]
      | none =>
        simp only [Option.bind]
        cases hs : goSplit host (Char.ofNat 46) with
        | nil => exact absurd hs (splitAux_ne_nil _ _ _)
        | cons a rest =>
          cases rest with
          | nil => simp [aliasKey]
          | cons b rest2 =>
            cases h3 : alookup r.aliasMap (b ++ ":" ++ a) with
            | none => simp [aliasKey, h3]
            | some v =>
              cases h4 : alookup r.versionMap (b ++ ":" ++ v) <;>
                simp [aliasKey, versionKey, h3, h4]
  refine ⟨heq, ?_⟩
  rw [proxyHandler, heq]


/-- Claim C6.  The claim as stated fails: the subdomain map can be left
with a dangling key (see the counterexample), so only its alias-map half
survives.  Amended: for every finite sequence of *successful* Deploy,
Rollback and DeleteVersion operations on colon-free function names
applied to the initially empty registry, every alias entry
`name:alias ↦ v` references a version `name:v` present in the version
map. -/
theorem claim6_alias_index_consistency (dir : String) (ops : List Op) (r' : RegState)
    (hwf : ops.all opWF = true) (h : runOk (emptyState dir) ops = some r') :
    aliasConsistent r' :=
  runOk_aliasConsistent ops (emptyState dir) r'
    (fun op hop => List.all_eq_true.mp hwf op hop)
    (emptyState_aliasConsistent dir) h

/-- Claim C6, witness: the invariant holds for the state reached by one
well-formed successful deploy. -/
theorem claim6_witness : aliasConsistent c6wState :=
  claim6_alias_index_consistency ("/w") c6wOps c6wState (by decide) (by rfl)

/-- Claim C6, counterexample: deploy `hello` v1 with alias `latest`,
deploy v2 without an alias (which repoints `aliasMap[hello:latest]` but
not the `latest.hello.func.local` subdomain), then delete v1 — whose
alias-cleanup loop finds no alias still reading v1.  All three operations
succeed and are well-formed, yet the final subdomain map still maps
`latest.hello.func.local` to `hello:v1`, a version the version map no
longer contains. -/
theorem claim6_counterexample :
    (runOk (emptyState ("/s")) c6ops).map (fun st =>
      (alookup st.subdomainMap ("latest.hello.func.local"),
       alookup st.versionMap ("hello:v1")))
      = some (some ("hello:v1"), none) ∧
    c6ops.all opWF = true := by
  refine ⟨by decide, by decide⟩

/-- Claim C7.  The claim as stated fails: `generateWorkerdFiles` keys
every file name by `meta.Name` alone.  Amended: for every record the
code file is `{dir}/{name}.js`, the configuration artifact
`{dir}/{name}.capnp` and the log `{dir}/{name}.log`, independent of the
version — so two versions of the same function share all three paths and
a new deploy overwrites the previous version's files. -/
theorem claim7_files_keyed_by_name_only (dir : String) (m : FunctionMetadata)
    (ext : StartExt) (g : GenResult) (h : generateWorkerdFiles dir m ext = .ok g) :
    g.codePath = joinPath dir (m.name ++ ".js") ∧
    g.confPath = joinPath dir (m.name ++ ".capnp") ∧
    g.meta.workerd.logPath = joinPath dir (m.name ++ ".log") := by
  have hm := generateWorkerdFiles_meta dir m ext g h
  refine ⟨hm.2.1, hm.2.2.2.1, ?_⟩
  rw [hm.1]

/-- Claim C7, witness: the concrete paths of `hello` v1. -/
theorem claim7_witness :
    c7g.codePath = joinPath ("/w") (helloV1.name ++ ".js") ∧
    c7g.confPath = joinPath ("/w") (helloV1.name ++ ".capnp") ∧
    c7g.meta.workerd.logPath = joinPath ("/w") (helloV1.name ++ ".log") :=
  claim7_files_keyed_by_name_only ("/w") helloV1 okStartExt c7g (by rfl)

/-- Claim C7, counterexample: versions v1 and v2 of `hello` receive
identical code and configuration paths, though the versions differ —
the claim demanded distinct, `(name, version)`-keyed files. -/
theorem claim7_counterexample :
    (generateWorkerdFiles ("/s") helloV1 okStartExt).map (fun g => (g.codePath, g.confPath))
      = (generateWorkerdFiles ("/s") helloV2 okStartExt).map
          (fun g => (g.codePath, g.confPath)) ∧
    helloV1.name = helloV2.name ∧ helloV1.version ≠ helloV2.version := by
  refine ⟨rfl, rfl, by decide⟩

/-- Claim C8.  The no-op half of the claim holds: with a zero pid,
`stopWorkerd` returns success and the record unchanged.  The clearing
half fails as stated — on success with a non-zero pid only the pid is
cleared; the port (and every other field) is left untouched, where the
claim says the port is cleared too.  Amended: success on a non-zero pid
yields exactly `clearPid m`, the record with pid zeroed and all other
fields, the port included, unchanged. -/
theorem claim8_stop_clears_pid_only (m : FunctionMetadata) (ext : StopExt) :
    (m.workerd.pid = 0 → stopWorkerd m ext = (m, none)) ∧
    (∀ m', stopWorkerd m ext = (m', none) → m.workerd.pid ≠ 0 →
      m' = clearPid m ∧ m'.workerd.port = m.workerd.port) := by
  constructor
  · intro h
    simp [stopWorkerd, h]
  · intro m' h hpid
    simp only [stopWorkerd, if_neg hpid] at h
    split at h
    · exact absurd h (by simp)
    · split at h
      · have hm : m' = clearPid m := (Prod.mk.injEq _ _ _ _).mp h |>.1.symm
        exact ⟨hm, by rw [hm]; rfl⟩
      · exact absurd h (by simp)
      · split at h
        · have hm : m' = clearPid m := (Prod.mk.injEq _ _ _ _).mp h |>.1.symm
          exact ⟨hm, by rw [hm]; rfl⟩
        · exact absurd h (by simp)
        · split at h
          · exact absurd h (by simp)
          · have hm : m' = clearPid m := (Prod.mk.injEq _ _ _ _).mp h |>.1.symm
            exact ⟨hm, by rw [hm]; rfl⟩

/-- Claim C8, witness: a zero-pid record is returned unchanged, and
stopping the pid-5 record clears exactly the pid, keeping port 8080. -/
theorem claim8_witness :
    stopWorkerd helloV1 okStopExt = (helloV1, none) ∧
    (clearPid c8meta = clearPid c8meta ∧
      (clearPid c8meta).workerd.port = c8meta.workerd.port) :=
  ⟨(claim8_stop_clears_pid_only helloV1 okStopExt).1 (by rfl),
   (claim8_stop_clears_pid_only c8meta okStopExt).2 (clearPid c8meta) (by rfl) (by decide)⟩

/-- Claim C8, counterexample: stopping the record with pid 5 and port
8080 succeeds, and the resulting record still carries port 8080 — the
claim said the port is cleared to zero on success. -/
theorem claim8_counterexample :
    stopWorkerd c8meta okStopExt = (clearPid c8meta, none) ∧
    c8meta.workerd.pid = 5 ∧
    (clearPid c8meta).workerd.port = 8080 ∧
    (clearPid c8meta).workerd.port ≠ 0 := by
  refine ⟨rfl, rfl, rfl, by decide⟩


/-- Claim C9.  `loadFromDB` queries only rows whose `deleted_at` is NULL
(the explicit `Where` on registry.go:326), so every record the rebuilt
version index or per-name index holds has a null deleted-at; since every
resolution path materializes records through those two maps, no
soft-deleted record is addressable after a restart. -/
theorem claim9_load_filters_soft_deleted (dir : String) (db : List FunctionMetadata)
    (exts : List LoadExt) (k : String) (m : FunctionMetadata)
    (h : alookup (loadFromDB dir db exts).versionMap k = some m ∨
         alookup (loadFromDB dir db exts).funcs k = some m) :
    m.deletedAt = none := by
  have hfilter : ∀ x ∈ db.filter (fun mm => mm.deletedAt.isNone), x.deletedAt = none := by
    intro x hx
    have h2 := (List.mem_filter.mp hx).2
    simpa [Option.isNone_iff_eq_none] using h2
  have hempty1 : ∀ k2 m2, alookup (emptyState dir).versionMap k2 = some m2 →
      m2.deletedAt = none := by
    intro k2 m2 hkm
    simp [emptyState, alookup] at hkm
  have hempty2 : ∀ k2 m2, alookup (emptyState dir).funcs k2 = some m2 →
      m2.deletedAt = none := by
    intro k2 m2 hkm
    simp [emptyState, alookup] at hkm
  have hload := loadAux_deletedAt dir (db.filter (fun mm => mm.deletedAt.isNone)) exts
    (emptyState dir) [] hfilter hempty1 hempty2
  simp only [loadFromDB, applyLatest_versionMap, applyLatest_funcs] at h
  rcases h with h | h
  · exact hload.1 k m h
  · exact hload.2 k m h

/-- Claim C9, witness: restarting from a database holding one live row
and one soft-deleted row, the record reachable under `hello:v1` has a
null deleted-at. -/
theorem claim9_witness : c9loaded.deletedAt = none :=
  claim9_load_filters_soft_deleted ("/s") [c9live, c9deleted] [okLoadExt]
    ("hello:v1") c9loaded (Or.inl (by rfl))

/-- Claim C10.  The env-map serialization round-trips: scanning the
driver value produced for a map with (key-sorted) entries `m` yields
exactly `m`; the nil map serializes to the literal text of an empty
object, which scans to the empty map; and scanning a database NULL also
yields the empty map — nil and empty collapse to the same scan result. -/
theorem claim10_jsonmap_roundtrip :
    (∀ m, jsonMapScan (jsonMapValue (some m)) = .ok m) ∧
    jsonMapScan (jsonMapValue none) = .ok [] ∧
    jsonMapScan DBValue.null = .ok [] := by
  refine ⟨?_, rfl, rfl⟩
  intro m
  simp only [jsonMapValue, jsonMapScan, jsonUnmarshalObj, jsonMarshalAssoc]
  rw [List.cons_append, parseObjChars_render]

end Faas
